import Mathlib

/-!
Shallow embedding of the DSP core of the paw-wave plugin:
the ADSR envelope generator (src/envelope.rs) and the PolyBLEP
oscillator (src/oscillator.rs). Floating-point (`f32`) values are
modelled as rationals (exact arithmetic, no rounding or NaN), `usize`
counters as naturals.
-/

set_option autoImplicit false

namespace PawWave

/-- Model of Rust `f32::clamp(lo, hi)`: below `lo` gives `lo`, above `hi`
gives `hi`, otherwise the value itself. -/
def clampQ (x lo hi : ℚ) : ℚ :=
  if x < lo then lo else if hi < x then hi else x

/-- Model of the Rust cast `expr as usize` on an `f32` value: truncation
toward zero, saturating to 0 for negative values. -/
def toUsizeQ (x : ℚ) : ℕ :=
  (⌊x⌋).toNat

/-- Division that records a division by zero instead of performing it,
used to express that the code never divides by a zero stage duration. -/
def divOpt (a b : ℚ) : Option ℚ :=
  if b = 0 then none else some (a / b)

/-- State of the ADSR envelope generator (struct `ADSR` in envelope.rs). -/
structure ADSR where
  attack : ℚ
  decay : ℚ
  sustain : ℚ
  release : ℚ
  sample_rate : ℚ
  current_sample : ℕ
  trigger_sample : ℕ
  note_off_sample : Option ℕ
  current_amplitude : ℚ
  velocity : ℚ
deriving DecidableEq

/-- Partial parameter update (struct `ADSRUpdate` in envelope.rs). -/
structure ADSRUpdate where
  attack : Option ℚ
  decay : Option ℚ
  sustain : Option ℚ
  release : Option ℚ

/-- Model of `ADSR::new`. -/
def ADSR.new (attack decay sustain release sample_rate : ℚ) : ADSR :=
  { attack := max attack 0
    decay := max decay 0
    sustain := clampQ sustain 0 1
    release := max release 0
    sample_rate := sample_rate
    current_sample := 0
    trigger_sample := 0
    note_off_sample := none
    current_amplitude := 0
    velocity := 1 }

/-- Model of `ADSR::update_params`. -/
def ADSR.update_params (s : ADSR) (params : ADSRUpdate) : ADSR :=
  let s1 := match params.attack with
    | some attack => { s with attack := max attack 0 }
    | none => s
  let s2 := match params.decay with
    | some decay => { s1 with decay := max decay 0 }
    | none => s1
  let s3 := match params.sustain with
    | some sustain => { s2 with sustain := clampQ sustain 0 1 }
    | none => s2
  match params.release with
    | some release => { s3 with release := max release 0 }
    | none => s3

/-- Model of `ADSR::on`. -/
def ADSR.on (s : ADSR) (velocity : ℚ) : ADSR :=
  { s with
    trigger_sample := s.current_sample
    note_off_sample := none
    velocity := clampQ velocity 0 1 }

/-- Model of `ADSR::off`.  Records the current clock value as the note-off sample;
if the attack phase was still incomplete, additionally jumps the clock to
the end of the attack phase. -/
def ADSR.off (s : ADSR) : ADSR :=
  match s.note_off_sample with
  | some _ => s
  | none =>
    let attackEnd := s.trigger_sample + toUsizeQ (s.attack * s.sample_rate)
    if s.current_sample < attackEnd then
      { s with note_off_sample := some s.current_sample, current_sample := attackEnd }
    else
      { s with note_off_sample := some s.current_sample }

/-- Attack/Decay/Sustain branch of `ADSR::next_sample`. -/
def ADSR.adsLevel (s : ADSR) : ℚ :=
  let time : ℚ := ((s.current_sample - s.trigger_sample : ℕ) : ℚ) / s.sample_rate
  if time < s.attack then
    time / s.attack
  else if time < s.attack + s.decay then
    1 - (1 - s.sustain) * ((time - s.attack) / s.decay)
  else
    s.sustain

/-- Release branch of `ADSR::next_sample`, taken when `note_off_sample`
is `some note_off` with `note_off ≤ current_sample`. -/
def ADSR.releaseLevel (s : ADSR) (note_off : ℕ) : ℚ :=
  let release_time : ℚ := ((s.current_sample - note_off : ℕ) : ℚ) / s.sample_rate
  if release_time ≥ s.release then 0
  else s.sustain * (1 - release_time / s.release)

/-- The envelope level computed by `ADSR::next_sample` (the `envelope`
local variable). -/
def ADSR.envLevel (s : ADSR) : ℚ :=
  match s.note_off_sample with
  | some note_off =>
    if s.current_sample ≥ note_off then s.releaseLevel note_off else s.adsLevel
  | none => s.adsLevel

/-- Model of `ADSR::next_sample`: returns the produced amplitude and the updated
state. -/
def ADSR.next_sample (s : ADSR) : ℚ × ADSR :=
  let amp := s.envLevel * s.velocity
  (amp, { s with current_amplitude := amp, current_sample := s.current_sample + 1 })

/-- Attack/Decay/Sustain branch with every division by a stage duration
checked: `none` exactly when the code would divide by a zero duration. -/
def ADSR.adsLevelChecked (s : ADSR) : Option ℚ :=
  let time : ℚ := ((s.current_sample - s.trigger_sample : ℕ) : ℚ) / s.sample_rate
  if time < s.attack then
    divOpt time s.attack
  else if time < s.attack + s.decay then
    (divOpt (time - s.attack) s.decay).map (fun dp => 1 - (1 - s.sustain) * dp)
  else
    some s.sustain

/-- Release branch with the division by `release` checked. -/
def ADSR.releaseLevelChecked (s : ADSR) (note_off : ℕ) : Option ℚ :=
  let release_time : ℚ := ((s.current_sample - note_off : ℕ) : ℚ) / s.sample_rate
  if release_time ≥ s.release then some 0
  else (divOpt release_time s.release).map (fun x => s.sustain * (1 - x))

/-- Envelope level with every division by a stage duration checked. -/
def ADSR.envLevelChecked (s : ADSR) : Option ℚ :=
  match s.note_off_sample with
  | some note_off =>
    if s.current_sample ≥ note_off then s.releaseLevelChecked note_off
    else s.adsLevelChecked
  | none => s.adsLevelChecked

/-- Reachability invariant of the envelope clock: the trigger sample and
any recorded note-off sample never exceed the current sample. -/
def ADSR.ClockInv (s : ADSR) : Prop :=
  s.trigger_sample ≤ s.current_sample ∧
    match s.note_off_sample with
    | some n => n ≤ s.current_sample
    | none => True

/-! ### Helper lemmas -/

theorem clampQ_mem (x lo hi : ℚ) (h : lo ≤ hi) :
    lo ≤ clampQ x lo hi ∧ clampQ x lo hi ≤ hi := by
  unfold clampQ
  split_ifs with h1 h2
  · exact ⟨le_refl _, h⟩
  · exact ⟨h, le_refl _⟩
  · exact ⟨not_lt.1 h1, not_lt.1 h2⟩

theorem clampQ_of_mem (x lo hi : ℚ) (h1 : lo ≤ x) (h2 : x ≤ hi) :
    clampQ x lo hi = x := by
  unfold clampQ
  rw [if_neg (not_lt.2 h1), if_neg (not_lt.2 h2)]

theorem adsLevel_bounds (s : ADSR) (hsr : 0 < s.sample_rate)
    (hsu0 : 0 ≤ s.sustain) (hsu1 : s.sustain ≤ 1) :
    0 ≤ s.adsLevel ∧ s.adsLevel ≤ 1 := by
  simp only [ADSR.adsLevel]
  set time : ℚ := ((s.current_sample - s.trigger_sample : ℕ) : ℚ) / s.sample_rate with htime
  have ht : 0 ≤ time := div_nonneg (Nat.cast_nonneg _) hsr.le
  split_ifs with h1 h2
  · have ha : 0 < s.attack := lt_of_le_of_lt ht h1
    exact ⟨div_nonneg ht ha.le, (div_le_one ha).2 h1.le⟩
  · have ha : s.attack ≤ time := not_lt.1 h1
    have hd : 0 < s.decay := by linarith
    have hdp0 : 0 ≤ (time - s.attack) / s.decay := div_nonneg (by linarith) hd.le
    have hdp1 : (time - s.attack) / s.decay ≤ 1 := (div_le_one hd).2 (by linarith)
    have hup : (1 - s.sustain) * ((time - s.attack) / s.decay) ≤ 1 :=
      mul_le_one₀ (by linarith) hdp0 hdp1
    have hlo : 0 ≤ (1 - s.sustain) * ((time - s.attack) / s.decay) :=
      mul_nonneg (by linarith) hdp0
    exact ⟨by linarith, by linarith⟩
  · exact ⟨hsu0, hsu1⟩

theorem releaseLevel_bounds (s : ADSR) (n : ℕ) (hsr : 0 < s.sample_rate)
    (hsu0 : 0 ≤ s.sustain) (hsu1 : s.sustain ≤ 1) :
    0 ≤ s.releaseLevel n ∧ s.releaseLevel n ≤ 1 := by
  simp only [ADSR.releaseLevel, ge_iff_le]
  set rt : ℚ := ((s.current_sample - n : ℕ) : ℚ) / s.sample_rate with hrt
  have h0 : 0 ≤ rt := div_nonneg (Nat.cast_nonneg _) hsr.le
  split_ifs with h
  · exact ⟨le_refl 0, zero_le_one⟩
  · have hlt : rt < s.release := not_le.1 h
    have hrel : 0 < s.release := lt_of_le_of_lt h0 hlt
    have hx0 : 0 ≤ rt / s.release := div_nonneg h0 hrel.le
    have hx1 : rt / s.release ≤ 1 := (div_le_one hrel).2 hlt.le
    exact ⟨mul_nonneg hsu0 (by linarith), mul_le_one₀ hsu1 (by linarith) (by linarith)⟩

theorem envLevel_bounds (s : ADSR) (hsr : 0 < s.sample_rate)
    (hsu0 : 0 ≤ s.sustain) (hsu1 : s.sustain ≤ 1) :
    0 ≤ s.envLevel ∧ s.envLevel ≤ 1 := by
  cases h : s.note_off_sample with
  | none =>
    simp only [ADSR.envLevel, h]
    exact adsLevel_bounds s hsr hsu0 hsu1
  | some n =>
    by_cases hc : s.current_sample ≥ n
    · simp only [ADSR.envLevel, h, if_pos hc]
      exact releaseLevel_bounds s n hsr hsu0 hsu1
    · simp only [ADSR.envLevel, h, if_neg hc]
      exact adsLevel_bounds s hsr hsu0 hsu1

theorem update_params_clock (s : ADSR) (p : ADSRUpdate) :
    (s.update_params p).current_sample = s.current_sample ∧
    (s.update_params p).trigger_sample = s.trigger_sample ∧
    (s.update_params p).note_off_sample = s.note_off_sample := by
  obtain ⟨a, d, su, r⟩ := p
  cases a <;> cases d <;> cases su <;> cases r <;>
    simp [ADSR.update_params]

/-! ### Claim theorems: envelope -/

/-- A concrete envelope state used to exercise `off` during an incomplete
attack phase: one second of attack at 100 samples per second, clock at 0. -/
def offAttackState : ADSR :=
  { attack := 1
    decay := 0
    sustain := 1
    release := 0
    sample_rate := 100
    current_sample := 0
    trigger_sample := 0
    note_off_sample := none
    current_amplitude := 0
    velocity := 1 }

/-- C1 counterexample: on a state with no pending release but an
incomplete attack phase, `off` does modify `current_sample` (it jumps it
to the end of the attack phase), contradicting the claim that `off`
leaves every field other than `note_off_sample` unchanged. -/
theorem off_modifies_current_sample_cex :
    offAttackState.note_off_sample = none ∧
    offAttackState.off.current_sample ≠ offAttackState.current_sample := by
  constructor
  · rfl
  · have htu : toUsizeQ ((100 : ℚ)) = 100 := by
      simp [toUsizeQ]
    have h : offAttackState.off.current_sample = 100 := by
      simp [ADSR.off, offAttackState, htu]
    rw [h]
    decide

/-- C1 (amended): when no release is pending, `off` records
`note_off_sample = current_sample` (the pre-call clock) and moves
`current_sample` up to the attack-end sample
`trigger_sample + ⌊attack · sample_rate⌋` when it was still below it;
all other fields are unchanged.  `current_sample` is otherwise advanced
only by `next_sample`. -/
theorem off_effect (s : ADSR) (h : s.note_off_sample = none) :
    s.off.note_off_sample = some s.current_sample ∧
    s.off.current_sample =
      max s.current_sample (s.trigger_sample + toUsizeQ (s.attack * s.sample_rate)) ∧
    s.off.trigger_sample = s.trigger_sample ∧
    s.off.attack = s.attack ∧
    s.off.decay = s.decay ∧
    s.off.sustain = s.sustain ∧
    s.off.release = s.release ∧
    s.off.sample_rate = s.sample_rate ∧
    s.off.current_amplitude = s.current_amplitude ∧
    s.off.velocity = s.velocity := by
  by_cases hlt : s.current_sample < s.trigger_sample + toUsizeQ (s.attack * s.sample_rate)
  · have hoff : s.off =
        { s with note_off_sample := some s.current_sample,
                 current_sample := s.trigger_sample + toUsizeQ (s.attack * s.sample_rate) } := by
      simp [ADSR.off, h, hlt]
    rw [hoff]
    refine ⟨rfl, ?_, rfl, rfl, rfl, rfl, rfl, rfl, rfl, rfl⟩
    simp [Nat.max_eq_right (Nat.le_of_lt hlt)]
  · have hoff : s.off = { s with note_off_sample := some s.current_sample } := by
      simp [ADSR.off, h, hlt]
    rw [hoff]
    refine ⟨rfl, ?_, rfl, rfl, rfl, rfl, rfl, rfl, rfl, rfl⟩
    simp [Nat.max_eq_left (Nat.le_of_not_lt hlt)]

/-- C1 witness: `off_effect` applied to the concrete attack-phase state. -/
theorem off_effect_witness :
    offAttackState.off.note_off_sample = some offAttackState.current_sample :=
  (off_effect offAttackState rfl).1

/-- C2: `on(v)` unconditionally restamps `trigger_sample` with the
current clock, clears `note_off_sample`, stores the clamped velocity,
leaves everything else (the clock included) unchanged, and thereby makes
the elapsed attack time of the next sample zero. -/
theorem on_effect (s : ADSR) (v : ℚ) :
    (s.on v).trigger_sample = s.current_sample ∧
    (s.on v).note_off_sample = none ∧
    (s.on v).velocity = clampQ v 0 1 ∧
    (s.on v).current_sample = s.current_sample ∧
    (s.on v).attack = s.attack ∧
    (s.on v).decay = s.decay ∧
    (s.on v).sustain = s.sustain ∧
    (s.on v).release = s.release ∧
    (s.on v).sample_rate = s.sample_rate ∧
    (s.on v).current_amplitude = s.current_amplitude ∧
    (s.on v).current_sample - (s.on v).trigger_sample = 0 :=
  ⟨rfl, rfl, rfl, rfl, rfl, rfl, rfl, rfl, rfl, rfl, Nat.sub_self _⟩

/-- C3: with a note-off recorded at sample `n` and the clock at or past
`n`, `next_sample` produces
`(if release_time ≥ release then 0 else sustain · (1 − release_time / release)) · velocity`
where `release_time = (current_sample − n) / sample_rate`. -/
theorem next_sample_release_formula (s : ADSR) (n : ℕ)
    (h1 : s.note_off_sample = some n) (h2 : n ≤ s.current_sample) :
    (s.next_sample).1 =
      (if ((s.current_sample : ℚ) - (n : ℚ)) / s.sample_rate ≥ s.release then 0
       else s.sustain *
         (1 - (((s.current_sample : ℚ) - (n : ℚ)) / s.sample_rate) / s.release)) *
        s.velocity := by
  have hcast : ((s.current_sample - n : ℕ) : ℚ) = (s.current_sample : ℚ) - (n : ℚ) :=
    Nat.cast_sub h2
  show s.envLevel * s.velocity = _
  simp only [ADSR.envLevel, ADSR.releaseLevel, h1, if_pos h2, hcast]

/-- A concrete envelope state sitting three samples into a release. -/
def releasingState : ADSR :=
  { attack := 0
    decay := 0
    sustain := 1
    release := 1
    sample_rate := 100
    current_sample := 5
    trigger_sample := 0
    note_off_sample := some 2
    current_amplitude := 1
    velocity := 1 }

/-- C3 witness: the release formula evaluated on `releasingState`. -/
theorem next_sample_release_formula_witness :
    (releasingState.next_sample).1 =
      (if ((releasingState.current_sample : ℚ) - (2 : ℕ)) / releasingState.sample_rate ≥
          releasingState.release then 0
       else releasingState.sustain *
         (1 - (((releasingState.current_sample : ℚ) - (2 : ℕ)) / releasingState.sample_rate) /
           releasingState.release)) * releasingState.velocity :=
  next_sample_release_formula releasingState 2 rfl (by decide)

/-- C4: while no release is in effect (no note-off recorded, or the
clock still before the recorded note-off sample), `next_sample` produces
the attack/decay/sustain formula of the claim, times the velocity, with
`time = (current_sample − trigger_sample) / sample_rate`. -/
theorem next_sample_ads_formula (s : ADSR)
    (h1 : s.note_off_sample = none ∨
      ∃ n, s.note_off_sample = some n ∧ s.current_sample < n)
    (h2 : s.trigger_sample ≤ s.current_sample) :
    (s.next_sample).1 =
      (if ((s.current_sample : ℚ) - (s.trigger_sample : ℚ)) / s.sample_rate < s.attack then
        (((s.current_sample : ℚ) - (s.trigger_sample : ℚ)) / s.sample_rate) / s.attack
       else if ((s.current_sample : ℚ) - (s.trigger_sample : ℚ)) / s.sample_rate <
          s.attack + s.decay then
        1 - (1 - s.sustain) *
          ((((s.current_sample : ℚ) - (s.trigger_sample : ℚ)) / s.sample_rate - s.attack) /
            s.decay)
       else s.sustain) * s.velocity := by
  have hcast : ((s.current_sample - s.trigger_sample : ℕ) : ℚ) =
      (s.current_sample : ℚ) - (s.trigger_sample : ℚ) :=
    Nat.cast_sub h2
  show s.envLevel * s.velocity = _
  rcases h1 with h | ⟨n, hn, hlt⟩
  · simp only [ADSR.envLevel, ADSR.adsLevel, h, hcast]
  · simp only [ADSR.envLevel, ADSR.adsLevel, hn, if_neg (Nat.not_le.2 hlt), hcast]

/-- A concrete held-note state four samples past its trigger. -/
def holdingState : ADSR :=
  { attack := 2
    decay := 1
    sustain := 1
    release := 1
    sample_rate := 1
    current_sample := 4
    trigger_sample := 0
    note_off_sample := none
    current_amplitude := 1
    velocity := 1 }

/-- C4 witness: the attack/decay/sustain formula evaluated on
`holdingState`. -/
theorem next_sample_ads_formula_witness :
    (holdingState.next_sample).1 =
      (if ((holdingState.current_sample : ℚ) - (holdingState.trigger_sample : ℚ)) /
          holdingState.sample_rate < holdingState.attack then
        (((holdingState.current_sample : ℚ) - (holdingState.trigger_sample : ℚ)) /
          holdingState.sample_rate) / holdingState.attack
       else if ((holdingState.current_sample : ℚ) - (holdingState.trigger_sample : ℚ)) /
          holdingState.sample_rate < holdingState.attack + holdingState.decay then
        1 - (1 - holdingState.sustain) *
          ((((holdingState.current_sample : ℚ) - (holdingState.trigger_sample : ℚ)) /
            holdingState.sample_rate - holdingState.attack) / holdingState.decay)
       else holdingState.sustain) * holdingState.velocity :=
  next_sample_ads_formula holdingState (Or.inl rfl) (by decide)

theorem adsLevelChecked_eq (s : ADSR) (hsr : 0 < s.sample_rate) :
    s.adsLevelChecked = some s.adsLevel := by
  simp only [ADSR.adsLevelChecked, ADSR.adsLevel, divOpt]
  set time : ℚ := ((s.current_sample - s.trigger_sample : ℕ) : ℚ) / s.sample_rate with htime
  have ht : 0 ≤ time := div_nonneg (Nat.cast_nonneg _) hsr.le
  by_cases h1 : time < s.attack
  · have ha : s.attack ≠ 0 := by
      intro h0
      rw [h0] at h1
      exact absurd (lt_of_le_of_lt ht h1) (lt_irrefl 0)
    rw [if_pos h1, if_pos h1, if_neg ha]
  · by_cases h2 : time < s.attack + s.decay
    · have hd : s.decay ≠ 0 := by
        intro h0
        rw [h0, add_zero] at h2
        exact h1 h2
      rw [if_neg h1, if_neg h1, if_pos h2, if_pos h2, if_neg hd]
      rfl
    · rw [if_neg h1, if_neg h1, if_neg h2, if_neg h2]

theorem releaseLevelChecked_eq (s : ADSR) (n : ℕ) (hsr : 0 < s.sample_rate) :
    s.releaseLevelChecked n = some (s.releaseLevel n) := by
  simp only [ADSR.releaseLevelChecked, ADSR.releaseLevel, divOpt, ge_iff_le]
  set rt : ℚ := ((s.current_sample - n : ℕ) : ℚ) / s.sample_rate with hrt
  have h0 : 0 ≤ rt := div_nonneg (Nat.cast_nonneg _) hsr.le
  by_cases h : s.release ≤ rt
  · rw [if_pos h, if_pos h]
  · have hrel : s.release ≠ 0 := by
      intro hz
      exact h (by rw [hz]; exact h0)
    rw [if_neg h, if_neg h, if_neg hrel]
    rfl

theorem envLevelChecked_eq (s : ADSR) (hsr : 0 < s.sample_rate) :
    s.envLevelChecked = some s.envLevel := by
  cases h : s.note_off_sample with
  | none =>
    simp only [ADSR.envLevelChecked, ADSR.envLevel, h]
    exact adsLevelChecked_eq s hsr
  | some n =>
    by_cases hc : s.current_sample ≥ n
    · simp only [ADSR.envLevelChecked, ADSR.envLevel, h, if_pos hc]
      exact releaseLevelChecked_eq s n hsr
    · simp only [ADSR.envLevelChecked, ADSR.envLevel, h, if_neg hc]
      exact adsLevelChecked_eq s hsr

/-- C5: zero-duration stages never divide by a zero duration: the
division-checked level computation agrees with the actual one (so no
division by a zero stage duration is ever evaluated); with `release = 0`
every release-phase level is 0; with `attack = 0` the level at elapsed
time 0 comes out of the decay formula as 1, or is `sustain` when `decay`
is also 0. -/
theorem no_zero_duration_division (s : ADSR) (hsr : 0 < s.sample_rate) :
    s.envLevelChecked = some s.envLevel ∧
    (s.release = 0 → ∀ n, s.note_off_sample = some n → n ≤ s.current_sample →
      s.envLevel = 0) ∧
    (s.attack = 0 → s.note_off_sample = none → s.current_sample = s.trigger_sample →
      s.envLevel = if 0 < s.decay then 1 else s.sustain) := by
  refine ⟨envLevelChecked_eq s hsr, ?_, ?_⟩
  · intro hrel n hn hcs
    have h0 : (0:ℚ) ≤ ((s.current_sample - n : ℕ) : ℚ) / s.sample_rate :=
      div_nonneg (Nat.cast_nonneg _) hsr.le
    simp only [ADSR.envLevel, ADSR.releaseLevel, hn, if_pos hcs, ge_iff_le, hrel, if_pos h0]
  · intro hatt hno hcs
    have hz : s.current_sample - s.trigger_sample = 0 := by omega
    simp only [ADSR.envLevel, ADSR.adsLevel, hno, hz, Nat.cast_zero, zero_div, hatt,
      lt_self_iff_false, if_false, zero_add, sub_self, mul_zero, sub_zero, zero_sub]

/-- A concrete envelope state whose stage durations are all zero. -/
def zeroStageState : ADSR :=
  { attack := 0
    decay := 0
    sustain := 1
    release := 0
    sample_rate := 100
    current_sample := 3
    trigger_sample := 3
    note_off_sample := none
    current_amplitude := 0
    velocity := 1 }

/-- C5 witness: the checked computation succeeds on `zeroStageState`. -/
theorem no_zero_duration_division_witness :
    zeroStageState.envLevelChecked = some zeroStageState.envLevel :=
  (no_zero_duration_division zeroStageState (by decide)).1

/-- C6: every `next_sample` call stores `level · velocity` in
`current_amplitude`, increments `current_sample` by exactly 1, returns
`current_amplitude`, and under the maintained clamping invariants the
returned value lies in [0, 1]. -/
theorem next_sample_step_and_range (s : ADSR) (hsr : 0 < s.sample_rate)
    (ha : 0 ≤ s.attack) (hd : 0 ≤ s.decay) (hr : 0 ≤ s.release)
    (hsu0 : 0 ≤ s.sustain) (hsu1 : s.sustain ≤ 1)
    (hv0 : 0 ≤ s.velocity) (hv1 : s.velocity ≤ 1) :
    (s.next_sample).2.current_amplitude = s.envLevel * s.velocity ∧
    (s.next_sample).2.current_sample = s.current_sample + 1 ∧
    (s.next_sample).1 = (s.next_sample).2.current_amplitude ∧
    0 ≤ (s.next_sample).1 ∧ (s.next_sample).1 ≤ 1 := by
  obtain ⟨h0, h1⟩ := envLevel_bounds s hsr hsu0 hsu1
  exact ⟨rfl, rfl, rfl, mul_nonneg h0 hv0, mul_le_one₀ h1 hv0 hv1⟩

/-- A concrete clamped-parameter envelope state used to evaluate the
range property. -/
def rangeState : ADSR :=
  { attack := 2
    decay := 2
    sustain := 1
    release := 3
    sample_rate := 100
    current_sample := 7
    trigger_sample := 0
    note_off_sample := some 5
    current_amplitude := 1
    velocity := 1 }

/-- C6 witness: the per-sample step property evaluated on `rangeState`. -/
theorem next_sample_step_and_range_witness :
    (rangeState.next_sample).2.current_amplitude = rangeState.envLevel * rangeState.velocity ∧
    (rangeState.next_sample).2.current_sample = rangeState.current_sample + 1 ∧
    (rangeState.next_sample).1 = (rangeState.next_sample).2.current_amplitude ∧
    0 ≤ (rangeState.next_sample).1 ∧ (rangeState.next_sample).1 ≤ 1 :=
  next_sample_step_and_range rangeState (by decide) (by decide) (by decide) (by decide)
    (by decide) (by decide) (by decide) (by decide)

theorem clockInv_iff (s : ADSR) :
    s.ClockInv ↔ s.trigger_sample ≤ s.current_sample ∧
      ∀ n, s.note_off_sample = some n → n ≤ s.current_sample := by
  unfold ADSR.ClockInv
  cases h : s.note_off_sample with
  | none => simp [h]
  | some m => simp [h]

/-- C9: the clock invariant (`trigger_sample ≤ current_sample`, and any
recorded `note_off_sample ≤ current_sample`) holds after construction
and is preserved by `on`, `off`, `update_params` and `next_sample`, so
the unsigned subtractions in `next_sample` never underflow. -/
theorem clock_invariant_preserved :
    (∀ a d su r sr : ℚ, (ADSR.new a d su r sr).ClockInv) ∧
    (∀ (s : ADSR) (v : ℚ), s.ClockInv → (s.on v).ClockInv) ∧
    (∀ s : ADSR, s.ClockInv → s.off.ClockInv) ∧
    (∀ (s : ADSR) (p : ADSRUpdate), s.ClockInv → (s.update_params p).ClockInv) ∧
    (∀ s : ADSR, s.ClockInv → (s.next_sample).2.ClockInv) := by
  refine ⟨?_, ?_, ?_, ?_, ?_⟩
  · intro a d su r sr
    exact ⟨Nat.le_refl 0, trivial⟩
  · intro s v h
    exact ⟨Nat.le_refl _, trivial⟩
  · intro s h
    cases hno : s.note_off_sample with
    | some m =>
      have hs : s.off = s := by simp [ADSR.off, hno]
      rw [hs]
      exact h
    | none =>
      rw [clockInv_iff] at h
      by_cases hlt : s.current_sample <
          s.trigger_sample + toUsizeQ (s.attack * s.sample_rate)
      · have hoff : s.off =
            { s with note_off_sample := some s.current_sample,
                     current_sample :=
                       s.trigger_sample + toUsizeQ (s.attack * s.sample_rate) } := by
          simp [ADSR.off, hno, hlt]
        rw [hoff, clockInv_iff]
        refine ⟨Nat.le_add_right _ _, ?_⟩
        intro n hn
        have h0 : some s.current_sample = some n := hn
        have h2 : s.current_sample = n := Option.some.inj h0
        subst h2
        exact Nat.le_of_lt hlt
      · have hoff : s.off = { s with note_off_sample := some s.current_sample } := by
          simp [ADSR.off, hno, hlt]
        rw [hoff, clockInv_iff]
        refine ⟨h.1, ?_⟩
        intro n hn
        have h0 : some s.current_sample = some n := hn
        have h2 : s.current_sample = n := Option.some.inj h0
        subst h2
        exact Nat.le_refl _
  · intro s p h
    obtain ⟨hcs, hts, hno⟩ := update_params_clock s p
    rw [clockInv_iff] at h ⊢
    rw [hcs, hts, hno]
    exact h
  · intro s h
    rw [clockInv_iff] at h ⊢
    obtain ⟨h1, h2⟩ := h
    refine ⟨Nat.le_succ_of_le h1, ?_⟩
    intro n hn
    exact Nat.le_succ_of_le (h2 n hn)

/-- C9 witness: the clock invariant after constructing an envelope and
releasing it. -/
theorem clock_invariant_preserved_witness :
    ((ADSR.new 1 2 1 1 100).off).ClockInv :=
  clock_invariant_preserved.2.2.1 _ (clock_invariant_preserved.1 1 2 1 1 100)

/-- C10: a fresh envelope behaves as if a note-on with velocity 1 had
occurred at construction: velocity starts at 1, the trigger sample and
clock at 0, no note-off is pending, and with zero attack and decay the
very first `next_sample` call already returns the sustain level. -/
theorem new_acts_as_note_on (a d su r sr : ℚ) (h0 : 0 ≤ su) (h1 : su ≤ 1) :
    (ADSR.new a d su r sr).velocity = 1 ∧
    (ADSR.new a d su r sr).trigger_sample = 0 ∧
    (ADSR.new a d su r sr).current_sample = 0 ∧
    (ADSR.new a d su r sr).note_off_sample = none ∧
    ((ADSR.new 0 0 su r sr).next_sample).1 = su := by
  refine ⟨rfl, rfl, rfl, rfl, ?_⟩
  have hcl : clampQ su 0 1 = su := clampQ_of_mem su 0 1 h0 h1
  show (ADSR.new 0 0 su r sr).envLevel * (ADSR.new 0 0 su r sr).velocity = su
  simp [ADSR.envLevel, ADSR.adsLevel, ADSR.new, hcl]

/-- C10 witness: `new_acts_as_note_on` at concrete parameters. -/
theorem new_acts_as_note_on_witness :
    (ADSR.new 2 3 1 4 100).velocity = 1 ∧
    (ADSR.new 2 3 1 4 100).trigger_sample = 0 ∧
    (ADSR.new 2 3 1 4 100).current_sample = 0 ∧
    (ADSR.new 2 3 1 4 100).note_off_sample = none ∧
    ((ADSR.new 0 0 1 4 100).next_sample).1 = 1 :=
  new_acts_as_note_on 2 3 1 4 100 (by decide) (by decide)

/-! ### Oscillator (src/oscillator.rs) -/

/-- Waveform selector (enum `OscillatorType`). -/
inductive OscillatorType where
  | Sine
  | Square
  | Saw
  | Triangle
deriving DecidableEq

/-- State of the PolyBLEP oscillator (struct `PolyBlepOscillator`). -/
structure PolyBlepOscillator where
  sample_rate : ℚ
  frequency : ℚ
  phase : ℚ
  phase_increment : ℚ
deriving DecidableEq

/-- Model of `PolyBlepOscillator::set_frequency`. -/
def PolyBlepOscillator.set_frequency (o : PolyBlepOscillator) (frequency : ℚ) :
    PolyBlepOscillator :=
  { o with frequency := frequency, phase_increment := frequency / o.sample_rate }

/-- Model of `PolyBlepOscillator::new`: builds the state with zero phase and
increment, then calls `set_frequency`. -/
def PolyBlepOscillator.new (sample_rate frequency : ℚ) : PolyBlepOscillator :=
  (PolyBlepOscillator.mk sample_rate frequency 0 0).set_frequency frequency

/-- Model of `PolyBlepOscillator::poly_blep`. -/
def PolyBlepOscillator.poly_blep (o : PolyBlepOscillator) (t : ℚ) : ℚ :=
  if t < o.phase_increment then
    let u := t / o.phase_increment
    2 * u - u * u - 1
  else if t > 1 - o.phase_increment then
    let u := (t - 1) / o.phase_increment
    u * u + 2 * u + 1
  else 0

/-- Truncation toward zero, the rounding used by the Rust float
remainder operator. -/
def truncQ (x : ℚ) : ℤ :=
  if 0 ≤ x then ⌊x⌋ else ⌈x⌉

/-- Model of the Rust expression `x % 1.0` on `f32`: remainder with the
sign of the dividend. -/
def fmodOne (x : ℚ) : ℚ :=
  x - truncQ x

/-- The raw (pre-clamp) sample of `PolyBlepOscillator::next_sample`,
computed at the pre-advance phase.  The sine arm needs `Real.sin`, so
the result lives in `ℝ`. -/
noncomputable def PolyBlepOscillator.rawSample (o : PolyBlepOscillator)
    (osc_type : OscillatorType) : ℝ :=
  match osc_type with
  | OscillatorType.Sine => Real.sin (2 * Real.pi * (o.phase : ℝ))
  | OscillatorType.Square =>
    (((if o.phase < 1/2 then (1 : ℚ) else -1)
      + o.poly_blep o.phase - o.poly_blep (fmodOne (o.phase + 1/2)) : ℚ) : ℝ)
  | OscillatorType.Saw =>
    ((2 * o.phase - 1 - o.poly_blep o.phase : ℚ) : ℝ)
  | OscillatorType.Triangle =>
    (((if o.phase < 1/2 then 4 * o.phase - 1 else 3 - 4 * o.phase)
      + o.poly_blep o.phase * (4 * o.phase_increment)
      - o.poly_blep (fmodOne (o.phase + 1/2)) * (4 * o.phase_increment) : ℚ) : ℝ)

/-- The phase update of `PolyBlepOscillator::next_sample`: add the
increment, then subtract the floor. -/
def PolyBlepOscillator.advance (o : PolyBlepOscillator) : PolyBlepOscillator :=
  { o with phase := (o.phase + o.phase_increment) - ⌊o.phase + o.phase_increment⌋ }

/-- Model of Rust `f32::clamp` over the reals. -/
noncomputable def clampR (x lo hi : ℝ) : ℝ :=
  if x < lo then lo else if hi < x then hi else x

/-- Model of `PolyBlepOscillator::next_sample`: the clamped sample at the current
phase, together with the phase-advanced state. -/
noncomputable def PolyBlepOscillator.next_sample (o : PolyBlepOscillator)
    (osc_type : OscillatorType) : ℝ × PolyBlepOscillator :=
  (clampR (o.rawSample osc_type) (-1) 1, o.advance)

/-- Iterated phase advances: `n` successive calls. -/
def PolyBlepOscillator.iterAdvance (o : PolyBlepOscillator) : ℕ → PolyBlepOscillator
  | 0 => o
  | n + 1 => (o.iterAdvance n).advance

/-- The oscillator invariant of the spec: the phase is normalized into
[0, 1) and the increment is the `frequency / sample_rate` derivation. -/
def OscInv (o : PolyBlepOscillator) : Prop :=
  0 ≤ o.phase ∧ o.phase < 1 ∧ o.phase_increment = o.frequency / o.sample_rate

/-! ### Claim theorems: oscillator -/

theorem clampR_mem (x lo hi : ℝ) (h : lo ≤ hi) :
    lo ≤ clampR x lo hi ∧ clampR x lo hi ≤ hi := by
  unfold clampR
  split_ifs with h1 h2
  · exact ⟨le_refl _, h⟩
  · exact ⟨h, le_refl _⟩
  · exact ⟨not_lt.1 h1, not_lt.1 h2⟩

/-- C7: the phase stays in [0, 1) and the phase increment stays equal to
`frequency / sample_rate` after construction, after `set_frequency`, and
after every `next_sample`; no operation assigns the increment any other
way. -/
theorem oscillator_invariant :
    (∀ sr f : ℚ, OscInv (PolyBlepOscillator.new sr f)) ∧
    (∀ (o : PolyBlepOscillator) (f : ℚ), OscInv o → OscInv (o.set_frequency f)) ∧
    (∀ (o : PolyBlepOscillator) (ty : OscillatorType),
      OscInv o → OscInv (o.next_sample ty).2) := by
  refine ⟨?_, ?_, ?_⟩
  · intro sr f
    exact ⟨le_refl 0, zero_lt_one, rfl⟩
  · intro o f h
    exact ⟨h.1, h.2.1, rfl⟩
  · intro o ty h
    have h1 : (o.next_sample ty).2.phase = Int.fract (o.phase + o.phase_increment) := by
      show (o.phase + o.phase_increment) - ⌊o.phase + o.phase_increment⌋ = _
      rw [Int.self_sub_floor]
    refine ⟨?_, ?_, h.2.2⟩
    · rw [h1]
      exact Int.fract_nonneg _
    · rw [h1]
      exact Int.fract_lt_one _

/-- C7 witness: the invariant after constructing an oscillator and
stepping it once. -/
theorem oscillator_invariant_witness :
    OscInv ((PolyBlepOscillator.new 2 1).next_sample OscillatorType.Saw).2 :=
  oscillator_invariant.2.2 _ OscillatorType.Saw (oscillator_invariant.1 2 1)

/-- C8: for every waveform type and every oscillator state, each
`next_sample` output over arbitrarily many consecutive calls is clamped
into [-1, 1]. -/
theorem oscillator_output_bounded (o : PolyBlepOscillator) (ty : OscillatorType)
    (n : ℕ) :
    -1 ≤ ((o.iterAdvance n).next_sample ty).1 ∧
      ((o.iterAdvance n).next_sample ty).1 ≤ 1 :=
  clampR_mem ((o.iterAdvance n).rawSample ty) (-1) 1 (by norm_num)

end PawWave
